import Mathlib

/-!
Verification of the RobCo Industries hacking puzzle engine (`robsec`),
shallowly embedded from `src/robsec/game.cpp` and `include/robsec/game.hpp`
(the header appears in the sources as `unnamed/part_004`).  Where several
historical variants of `game.cpp` are present, the latest variant (the one
with `load_dictionary`, the 100-round placement budget and the
`--attempts == 0` check) is the one embedded, matching the line numbers the
claims cite.

Machine integers: all `std::size_t` quantities are modelled as `Nat`.  The
only subtractions performed by the modelled code paths are on values where
no underflow occurs (this is noted at each definition), so `Nat` truncated
subtraction agrees with `size_t` arithmetic there.  `int` quantities
(`attempts`) are modelled as `Int`.  Randomness (`random_number`,
`select_randomly`) is modelled by explicit draw tapes passed as parameters;
`random_number(0, n - 1)` always yields a value in `[0, n - 1]`, which is
modelled either by quantifying over all draws (when the claim does not
depend on the range) or by reducing the draw modulo the range size (which is
the identity on in-range draws).  File and terminal I/O (ncurses) carry no
puzzle logic and are not modelled.
-/

set_option maxRecDepth 8192

namespace robsec

/-- Byte values `0..255`: the index space of the C++ `int table[256]`
frequency table and the range of the `unsigned char` casts. -/
abbrev Byte := Fin 256

/-- Encode an ASCII string as the list of byte values of its characters
(the content of a C++ `std::string` as passed through `c_str()`). -/
def str (s : String) : List Byte :=
  s.toList.map (fun c => (⟨c.toNat % 256, Nat.mod_lt _ (by omega)⟩ : Byte))

/-- `robsec::GameLocation` (game.hpp): a cell of the logical grid.  Field
order matches the C++ constructor `GameLocation(panel, column, row)`. -/
structure GameLocation where
  panel : Nat
  column : Nat
  row : Nat
deriving DecidableEq, Repr

/-- `robsec::ScreenLocation` (game.hpp): absolute display coordinates. -/
structure ScreenLocation where
  x : Nat
  y : Nat
deriving DecidableEq, Repr

/-- `#define ADDRESS_LEN 6` (game.cpp). -/
def ADDRESS_LEN : Nat := 6

/-- `#define HEADER_LEN (3 + 2)` (game.cpp). -/
def HEADER_LEN : Nat := 3 + 2

/-- `Game::to_screen_location` (game.cpp):
`x = (ADDRESS_LEN + 1) * (panel + 1) + (2 + n_columns) * panel + column`,
`y = HEADER_LEN + row`.  Only the grid's `n_columns` is read. -/
def to_screen_location (n_columns : Nat) (location : GameLocation) : ScreenLocation :=
  { x := (ADDRESS_LEN + 1) * (location.panel + 1) + (2 + n_columns) * location.panel +
         location.column,
    y := HEADER_LEN + location.row }

/-- `Game::to_game_location` (game.cpp).  The C++ subtractions are on
`std::size_t`; on the screen locations produced by `to_screen_location`
(where `x ≥ ADDRESS_LEN + 1` and `y ≥ HEADER_LEN`) no underflow occurs, so
`Nat` truncated subtraction agrees with `size_t` arithmetic there. -/
def to_game_location (n_columns : Nat) (location : ScreenLocation) : GameLocation :=
  { panel := (location.x - ADDRESS_LEN - 1) / (ADDRESS_LEN + 1 + n_columns + 2),
    column := location.x % (ADDRESS_LEN + 1 + n_columns + 2) - ADDRESS_LEN - 1,
    row := location.y - HEADER_LEN }

/-- `Game::linear_to_game_location` (game.cpp): linear offset to (row, column)
within a panel.  Constructor argument order is `(panel, column, row)` with
`column = position % n_columns`, `row = position / n_columns`. -/
def linear_to_game_location (n_columns panel position : Nat) : GameLocation :=
  { panel := panel, column := position % n_columns, row := position / n_columns }

/-- `Game::linear_to_screen_location` (game.cpp): chains the two mappers. -/
def linear_to_screen_location (n_columns panel position : Nat) : ScreenLocation :=
  to_screen_location n_columns (linear_to_game_location n_columns panel position)

/-- C1 helper: the x coordinate produced by `to_screen_location`, rearranged
as an offset plus a multiple of the panel stride. -/
lemma to_screen_x_eq (n_columns : Nat) (p c : Nat) :
    (ADDRESS_LEN + 1) * (p + 1) + (2 + n_columns) * p + c =
      ADDRESS_LEN + 1 + p * (ADDRESS_LEN + 1 + n_columns + 2) + c := by
  simp only [ADDRESS_LEN]
  ring

/-- C2: for every `GridLocation` within configured bounds, converting to a
screen location and back is the identity. -/
theorem C2_round_trip (n_panels n_rows n_columns : Nat) (g : GameLocation)
    (hp : g.panel < n_panels) (hr : g.row < n_rows) (hc : g.column < n_columns) :
    to_game_location n_columns (to_screen_location n_columns g) = g := by
  obtain ⟨p, c, r⟩ := g
  simp only at hp hr hc
  have hM : 0 < ADDRESS_LEN + 1 + n_columns + 2 := by simp [ADDRESS_LEN]
  simp only [to_screen_location, to_game_location, GameLocation.mk.injEq]
  have hx : (ADDRESS_LEN + 1) * (p + 1) + (2 + n_columns) * p + c =
      ADDRESS_LEN + 1 + p * (ADDRESS_LEN + 1 + n_columns + 2) + c :=
    to_screen_x_eq n_columns p c
  refine ⟨?_, ?_, ?_⟩
  · -- panel component
    show ((ADDRESS_LEN + 1) * (p + 1) + (2 + n_columns) * p + c - ADDRESS_LEN - 1) /
        (ADDRESS_LEN + 1 + n_columns + 2) = p
    rw [hx]
    have h1 : ADDRESS_LEN + 1 + p * (ADDRESS_LEN + 1 + n_columns + 2) + c - ADDRESS_LEN - 1 =
        (ADDRESS_LEN + 1 + n_columns + 2) * p + c := by
      rw [Nat.mul_comm]; omega
    rw [h1, Nat.mul_add_div hM, Nat.div_eq_of_lt (by omega), Nat.add_zero]
  · -- column component
    show ((ADDRESS_LEN + 1) * (p + 1) + (2 + n_columns) * p + c) %
        (ADDRESS_LEN + 1 + n_columns + 2) - ADDRESS_LEN - 1 = c
    rw [hx]
    have h2 : ADDRESS_LEN + 1 + p * (ADDRESS_LEN + 1 + n_columns + 2) + c =
        ADDRESS_LEN + 1 + c + p * (ADDRESS_LEN + 1 + n_columns + 2) := by omega
    rw [h2, Nat.add_mul_mod_self_right, Nat.mod_eq_of_lt (by omega)]
    omega
  · -- row component
    show HEADER_LEN + r - HEADER_LEN = r
    omega

/-- C2 witness: the round trip evaluated at the concrete in-bounds location
(panel 1, column 2, row 0) of a 2-panel, 3-row, 4-column grid. -/
theorem C2_round_trip_witness :
    (1 : Nat) < 2 ∧ (0 : Nat) < 3 ∧ (2 : Nat) < 4 ∧
      to_game_location 4 (to_screen_location 4 ⟨1, 2, 0⟩) = ⟨1, 2, 0⟩ :=
  ⟨by decide, by decide, by decide,
    C2_round_trip 2 3 4 ⟨1, 2, 0⟩ (by decide) (by decide) (by decide)⟩

/-- `robsec::Word` (game.hpp): a placed candidate word.  `end` is a Lean
keyword, so the C++ field `end` is named `end_`; it always equals
`start + string.length` for words built by the constructor. -/
structure Word where
  panel : Nat
  start : Nat
  end_ : Nat
  string : List Byte
  coordinates : List ScreenLocation
deriving DecidableEq, Repr

/-- The C++ constructor `Word(panel, start, string)`: `end = start + length`,
`coordinates` empty. -/
def Word.mk3 (panel start : Nat) (string : List Byte) : Word :=
  { panel := panel, start := start, end_ := start + string.length,
    string := string, coordinates := [] }

/-- `Word::overlap(const Word &)` (game.hpp): closed-interval test
`(start <= rhs.end) && (rhs.start <= end)`.  Note it does not read `panel`. -/
def Word.overlap (w rhs : Word) : Bool :=
  decide (w.start ≤ rhs.end_) && decide (rhs.start ≤ w.end_)

/-- `Word::overlap(const std::vector<Word> &)` (game.hpp): true iff the word
overlaps some word of the list (loop with early return). -/
def Word.overlapList (w : Word) : List Word → Bool
  | [] => false
  | other :: rest => if w.overlap other then true else w.overlapList rest

/-- `Word::is_selected(c, position)` (game.hpp):
`(panel == c) && (start <= position) && (position < end)`. -/
def Word.is_selected (w : Word) (c position : Nat) : Bool :=
  decide (w.panel = c) && decide (w.start ≤ position) && decide (position < w.end_)

/-- First loop of `count_common_letters` (game.cpp): build the frequency
table of the bytes of `a` on top of table `t` (the C++ table starts at all
zeros and is bumped once per character). -/
def buildTable : List Byte → (Byte → Int) → (Byte → Int)
  | [], table => table
  | c :: rest, table => buildTable rest (fun x => if x = c then table x + 1 else table x)

/-- Second loop of `count_common_letters` (game.cpp): for each byte of `b`,
`result += (table[*b]-- > 0)` — the old table value is compared against 0,
then decremented (possibly below zero). -/
def cclAux : (Byte → Int) → List Byte → Int → Int
  | _, [], result => result
  | table, c :: rest, result =>
      cclAux (fun x => if x = c then table x - 1 else table x) rest
        (result + if 0 < table c then 1 else 0)

/-- `count_common_letters(a, b)` (game.cpp): frequency table built from `a`,
matches counted over `b`.  `render` calls it with `a` = selected word,
`b` = solution. -/
def count_common_letters (a b : List Byte) : Int :=
  cclAux (buildTable a (fun _ => 0)) b 0

/-- The first loop produces the occurrence-count table of `a`. -/
lemma buildTable_eq (a : List Byte) :
    ∀ (t : Byte → Int) (c : Byte), buildTable a t c = t c + a.count c := by
  induction a with
  | nil => intro t c; simp [buildTable]
  | cons d rest ih =>
    intro t c
    rw [buildTable, ih]
    by_cases hc : c = d
    · subst hc
      simp only [List.count_cons, if_pos rfl, beq_self_eq_true, if_true]
      push_cast
      ring
    · simp only [List.count_cons, if_neg hc, beq_iff_eq]
      rw [if_neg (fun h => hc (Eq.symm h))]
      push_cast
      ring

/-- The second loop is insensitive to entries of the table that are `≤ 0`:
two tables agreeing on positivity and on positive values produce the same
count (decrements below zero never re-enable a byte). -/
lemma cclAux_congr (b : List Byte) :
    ∀ (t t' : Byte → Int) (r : Int),
      (∀ c, (0 < t c ↔ 0 < t' c) ∧ (0 < t c → t c = t' c)) →
      cclAux t b r = cclAux t' b r := by
  induction b with
  | nil => intro t t' r _; rfl
  | cons c rest ih =>
    intro t t' r h
    rw [cclAux, cclAux]
    have hc := h c
    have hif : (if 0 < t c then (1 : Int) else 0) = (if 0 < t' c then (1 : Int) else 0) := by
      by_cases h0 : 0 < t c
      · rw [if_pos h0, if_pos (hc.1.mp h0)]
      · rw [if_neg h0, if_neg (fun h0' => h0 (hc.1.mpr h0'))]
    rw [hif]
    apply ih
    intro x
    by_cases hx : x = c
    · subst hx
      by_cases h0 : 0 < t x
      · have := hc.2 h0
        simp [this]

      · have h0' : ¬ 0 < t' x := fun h0' => h0 (hc.1.mpr h0')
        constructor
        · simp only [if_pos rfl]
          omega
        · intro habs
          simp only [if_pos rfl] at habs
          omega
    · simp only [if_neg hx]
      exact h x

/-- The second loop run on the exact count table of a multiset `A` computes
the size of the multiset intersection with `b`. -/
lemma cclAux_inter (b : List Byte) :
    ∀ (A : Multiset Byte) (r : Int),
      cclAux (fun c => (A.count c : Int)) b r = r + ((b : Multiset Byte) ∩ A).card := by
  induction b with
  | nil =>
    intro A r
    simp [cclAux]
  | cons c rest ih =>
    intro A r
    rw [cclAux]
    by_cases hc : c ∈ A
    · have hpos : 0 < A.count c := Multiset.count_pos.mpr hc
      have hpos' : (0 : Int) < (A.count c : Int) := by exact_mod_cast hpos
      rw [if_pos hpos']
      have htab : (fun x => if x = c then (A.count x : Int) - 1 else (A.count x : Int)) =
          (fun x => ((A.erase c).count x : Int)) := by
        funext x
        by_cases hx : x = c
        · subst hx
          rw [if_pos rfl, Multiset.count_erase_self]
          omega
        · rw [if_neg hx, Multiset.count_erase_of_ne hx]
      rw [htab, ih]
      have hco : ((c :: rest : List Byte) : Multiset Byte) = c ::ₘ (rest : Multiset Byte) := rfl
      rw [hco, Multiset.cons_inter_of_pos _ hc, Multiset.card_cons]
      push_cast
      ring
    · have h0 : A.count c = 0 := Multiset.count_eq_zero_of_not_mem hc
      rw [if_neg (by simp [h0])]
      rw [cclAux_congr rest
            (fun x => if x = c then (A.count x : Int) - 1 else (A.count x : Int))
            (fun x => (A.count x : Int)) _
            (by
              intro x
              by_cases hx : x = c
              · subst hx
                simp only [if_pos rfl, h0]
                constructor
                · constructor
                  · intro habs; omega
                  · intro habs; omega
                · intro habs; omega
              · simp [if_neg hx])]
      rw [ih]
      have hco : ((c :: rest : List Byte) : Multiset Byte) = c ::ₘ (rest : Multiset Byte) := rfl
      rw [hco, Multiset.cons_inter_of_neg _ hc]
      simp

/-- `count_common_letters a b` is the size of the multiset intersection of
the two byte lists. -/
lemma count_common_letters_card (a b : List Byte) :
    count_common_letters a b = (((b : Multiset Byte)) ∩ ((a : Multiset Byte))).card := by
  rw [count_common_letters]
  have htab : buildTable a (fun _ => 0) = fun c => (((a : Multiset Byte).count c : Nat) : Int) := by
    funext c
    rw [buildTable_eq a _ c, Multiset.coe_count]
    omega
  rw [htab, cclAux_inter b ((a : Multiset Byte)) 0]
  omega

/-- The cardinality of a multiset of bytes is the sum of its per-byte
multiplicities over all 256 byte values. -/
lemma card_eq_sum_count_univ (s : Multiset Byte) :
    s.card = ∑ c : Byte, s.count c := by
  rw [← Multiset.toFinset_sum_count_eq s]
  exact Finset.sum_subset (Finset.subset_univ _)
    (fun x _ hx => Multiset.count_eq_zero_of_not_mem (fun hmem => hx (Multiset.mem_toFinset.mpr hmem)))

/-- The feedback score is the size of the multiset intersection, hence
symmetric in its two arguments. -/
lemma count_common_letters_comm (a b : List Byte) :
    count_common_letters a b = count_common_letters b a := by
  rw [count_common_letters_card, count_common_letters_card, Multiset.inter_comm]

/-- C3: for every pair of strings the feedback score is the number of
multiset-common characters (per byte value, the minimum of its occurrence
counts in candidate and solution, summed over all 256 byte values); in
particular `score("CAT", "CATS") = 3`, `score("AABB", "AB") = 2` and
`score("AAAA", "AA") = 2`. -/
theorem C3_score_is_multiset_min :
    (∀ a b : List Byte,
        count_common_letters a b = ∑ c : Byte, ((min (a.count c) (b.count c) : Nat) : Int)) ∧
      count_common_letters (str "CAT") (str "CATS") = 3 ∧
      count_common_letters (str "AABB") (str "AB") = 2 ∧
      count_common_letters (str "AAAA") (str "AA") = 2 := by
  refine ⟨?_, by decide, by decide, by decide⟩
  intro a b
  rw [count_common_letters_card, card_eq_sum_count_univ, Nat.cast_sum]
  refine Finset.sum_congr rfl (fun c _ => ?_)
  rw [Multiset.count_inter, Multiset.coe_count, Multiset.coe_count, Nat.min_comm]

/-- C4 counterexample: the claimed asymmetry does not exist — there is no
pair of strings on which `count_common_letters` is asymmetric, because the
score is the (symmetric) multiset-intersection size. -/
theorem C4_asymmetry_counterexample :
    ¬ ∃ a b : List Byte, count_common_letters a b ≠ count_common_letters b a :=
  fun ⟨a, b, h⟩ => h (count_common_letters_comm a b)

/-- C4 (amended): the feedback score is symmetric — for every pair of
strings, `score(a, b) = score(b, a)`; the per-byte count is bounded by both
the solution's and the candidate's letter multisets. -/
theorem C4_score_symmetric :
    ∀ a b : List Byte, count_common_letters a b = count_common_letters b a :=
  count_common_letters_comm

/-- `Game::GameState` (game.hpp). -/
inductive GameState where
  | Running
  | MousePressed
  | EnterPressed
  | Won
  | Lost
deriving DecidableEq, Repr

/-- The gameplay-relevant state of `robsec::Game` (game.hpp).  The display
buffers (`content`), the dictionaries and `start_address` carry no guess
logic and are omitted; `attempts` and `attempts_max` are C++ `int`s. -/
structure Game where
  n_panels : Nat
  n_rows : Nat
  n_columns : Nat
  n_words : Nat
  attempts_max : Int
  attempts : Int
  position : GameLocation
  solution : List Byte
  words : List Word
  state : GameState
deriving Repr

/-- `Game::find_selected_word` (game.cpp): the first placed word whose
occupied interval contains the cursor's linear position
`row * n_columns + column` in the cursor's panel. -/
def find_selected_word (g : Game) : Option Word :=
  g.words.find? (fun word =>
    word.is_selected g.position.panel (g.position.row * g.n_columns + g.position.column))

/-- The guess-evaluation prefix of `Game::render` (game.cpp, latest variant).
Returns the C++ `bool` result and the updated state.  The drawing calls are
pure display and always reach `state = Running; return true` on the paths
modelled here; their ncurses error returns are not modelled.  The feedback
score `count_common_letters(selected->string, solution)` is display-only and
does not affect the state transition. -/
def render (g : Game) : Bool × Game :=
  match find_selected_word g with
  | none =>
    if g.state = GameState.MousePressed ∨ g.state = GameState.EnterPressed then
      (false, g)
    else
      (true, { g with state := GameState.Running })
  | some selected_word =>
    if g.state = GameState.MousePressed ∨ g.state = GameState.EnterPressed then
      if selected_word.string = g.solution then
        (true, { g with state := GameState.Won })
      else if g.attempts - 1 = 0 then
        (true, { g with attempts := g.attempts - 1, state := GameState.Lost })
      else
        (true, { g with attempts := g.attempts - 1, state := GameState.Running })
    else
      (true, { g with state := GameState.Running })

/-- C6: a wrong activation decrements `attempts` by exactly 1 and forces
`Lost` exactly when the decrement reaches 0; a correct activation and any
non-activation input leave `attempts` unchanged. -/
theorem C6_attempts_monotonicity :
    (∀ (g : Game) (w : Word), find_selected_word g = some w →
        (g.state = GameState.MousePressed ∨ g.state = GameState.EnterPressed) →
        w.string ≠ g.solution →
        (render g).2.attempts = g.attempts - 1 ∧
          ((render g).2.attempts = 0 → (render g).2.state = GameState.Lost)) ∧
      (∀ (g : Game) (w : Word), find_selected_word g = some w →
        (g.state = GameState.MousePressed ∨ g.state = GameState.EnterPressed) →
        w.string = g.solution → (render g).2.attempts = g.attempts) ∧
      (∀ g : Game, g.state ≠ GameState.MousePressed → g.state ≠ GameState.EnterPressed →
        (render g).2.attempts = g.attempts) := by
  refine ⟨?_, ?_, ?_⟩
  · intro g w hfind hact hne
    simp only [render, hfind, if_pos hact, if_neg hne]
    by_cases h0 : g.attempts - 1 = 0
    · simp only [if_pos h0]
      exact ⟨trivial, fun _ => trivial⟩
    · simp only [if_neg h0]
      exact ⟨trivial, fun habs => absurd habs h0⟩
  · intro g w hfind hact heq
    simp only [render, hfind, if_pos hact, if_pos heq]
  · intro g hmouse henter
    have hact : ¬ (g.state = GameState.MousePressed ∨ g.state = GameState.EnterPressed) := by
      rintro (h | h) <;> [exact hmouse h; exact henter h]
    cases hfind : find_selected_word g with
    | none => simp only [render, hfind, if_neg hact]
    | some w => simp only [render, hfind, if_neg hact]

/-- C7: activating while the word under the cursor equals the solution
immediately yields `Won` and leaves `attempts` unchanged, whatever its
value. -/
theorem C7_win_keeps_attempts :
    ∀ (g : Game) (w : Word), find_selected_word g = some w →
      (g.state = GameState.MousePressed ∨ g.state = GameState.EnterPressed) →
      w.string = g.solution →
      (render g).2.state = GameState.Won ∧ (render g).2.attempts = g.attempts := by
  intro g w hfind hact heq
  simp only [render, hfind, if_pos hact, if_pos heq]
  exact ⟨trivial, trivial⟩

/-- A concrete placed word for witnesses: "CAT" at panel 0, span [0, 3). -/
def wCAT : Word := Word.mk3 0 0 (str "CAT")

/-- A concrete 1-panel, 1-row, 4-column game holding only `wCAT`, with the
cursor on its first cell. -/
def demoGame (solution : List Byte) (state : GameState) (attempts : Int) : Game :=
  { n_panels := 1, n_rows := 1, n_columns := 4, n_words := 1, attempts_max := 4,
    attempts := attempts, position := ⟨0, 0, 0⟩, solution := solution,
    words := [wCAT], state := state }

/-- C6 witness: a wrong activation at 3 attempts leaves 2; a correct
activation and a non-activation input leave 3. -/
theorem C6_attempts_witness :
    ((render (demoGame (str "DOG") GameState.EnterPressed 3)).2.attempts = 2 ∧
        ((render (demoGame (str "DOG") GameState.EnterPressed 3)).2.attempts = 0 →
          (render (demoGame (str "DOG") GameState.EnterPressed 3)).2.state = GameState.Lost)) ∧
      (render (demoGame (str "CAT") GameState.EnterPressed 3)).2.attempts = 3 ∧
      (render (demoGame (str "DOG") GameState.Running 3)).2.attempts = 3 :=
  ⟨C6_attempts_monotonicity.1 (demoGame (str "DOG") GameState.EnterPressed 3) wCAT
      (by decide) (Or.inr rfl) (by decide),
    C6_attempts_monotonicity.2.1 (demoGame (str "CAT") GameState.EnterPressed 3) wCAT
      (by decide) (Or.inr rfl) (by decide),
    C6_attempts_monotonicity.2.2 (demoGame (str "DOG") GameState.Running 3)
      (by decide) (by decide)⟩

/-- C7 witness: the spec's win scenario — a 1-panel, 1-row, 4-column grid
whose single placed word is the solution; activating on it with only one
attempt left yields `Won` without consuming the attempt. -/
theorem C7_win_witness :
    (render (demoGame (str "CAT") GameState.EnterPressed 1)).2.state = GameState.Won ∧
      (render (demoGame (str "CAT") GameState.EnterPressed 1)).2.attempts = 1 :=
  C7_win_keeps_attempts (demoGame (str "CAT") GameState.EnterPressed 1) wCAT
    (by decide) (Or.inr rfl) (by decide)

/-- The key inputs `parse_key_position` distinguishes (ncurses `KEY_UP`,
`KEY_DOWN`, `KEY_LEFT`, `KEY_RIGHT`); every other key code falls through to
the `else` branch. -/
inductive Key where
  | up
  | down
  | left
  | right
  | other (code : Int)
deriving DecidableEq, Repr

/-- `Game::parse_key_position` (game.cpp, latest variant).  Returns the C++
`bool` result and the (possibly) updated location.  The C++
`--location.column = n_columns - 1` pre-decrements `column` and then assigns
`n_columns - 1` to it, so its net effect is `column = n_columns - 1`.  The
`size_t` subtractions `n_rows - 1`, `n_columns - 1`, `n_panels - 1` are
modelled by `Nat` truncated subtraction, which agrees with `size_t` for the
configured dimensions (all at least 1). -/
def parse_key_position (n_panels n_rows n_columns : Nat) (key : Key)
    (location : GameLocation) : Bool × GameLocation :=
  if key = Key.up ∧ 0 < location.row then
    (true, { location with row := location.row - 1 })
  else if key = Key.down ∧ location.row < n_rows - 1 then
    (true, { location with row := location.row + 1 })
  else if key = Key.left then
    if 0 < location.column then
      (true, { location with column := location.column - 1 })
    else if 0 < location.panel then
      (true, { location with column := n_columns - 1, panel := location.panel - 1 })
    else
      (true, location)
  else if key = Key.right then
    if location.column < n_columns - 1 then
      (true, { location with column := location.column + 1 })
    else if location.panel < n_panels - 1 then
      (true, { location with column := 0, panel := location.panel + 1 })
    else
      (true, location)
  else
    (false, location)

/-- C9: movement clamping and panel crossing — up or left from (0,0,0) is a
no-op; left from column 0 of panel `p > 0` lands on the last column of panel
`p - 1`; right from the last column of panel `p < n_panels - 1` lands on
column 0 of panel `p + 1`; left at the first panel and right at the last
panel never wrap around. -/
theorem C9_movement :
    (∀ n_panels n_rows n_columns : Nat,
        (parse_key_position n_panels n_rows n_columns Key.up ⟨0, 0, 0⟩).2 = ⟨0, 0, 0⟩ ∧
          (parse_key_position n_panels n_rows n_columns Key.left ⟨0, 0, 0⟩).2 = ⟨0, 0, 0⟩) ∧
      (∀ n_panels n_rows n_columns p r : Nat, 0 < p →
        (parse_key_position n_panels n_rows n_columns Key.left ⟨p, 0, r⟩).2 =
          ⟨p - 1, n_columns - 1, r⟩) ∧
      (∀ n_panels n_rows n_columns p r : Nat, 0 < n_columns → p < n_panels - 1 →
        (parse_key_position n_panels n_rows n_columns Key.right ⟨p, n_columns - 1, r⟩).2 =
          ⟨p + 1, 0, r⟩) ∧
      (∀ n_panels n_rows n_columns r : Nat,
        (parse_key_position n_panels n_rows n_columns Key.left ⟨0, 0, r⟩).2 = ⟨0, 0, r⟩ ∧
          (parse_key_position n_panels n_rows n_columns Key.right
              ⟨n_panels - 1, n_columns - 1, r⟩).2 = ⟨n_panels - 1, n_columns - 1, r⟩) := by
  refine ⟨?_, ?_, ?_, ?_⟩
  · intro np nr nc
    constructor
    · simp [parse_key_position]
    · simp [parse_key_position]
  · intro np nr nc p r hp
    simp [parse_key_position, hp]
  · intro np nr nc p r hc hp
    simp [parse_key_position, hp]
  · intro np nr nc r
    constructor
    · simp [parse_key_position]
    · simp [parse_key_position]

/-- C9 witness: the four movement facts evaluated on a 3-panel, 2-row,
4-column grid. -/
theorem C9_movement_witness :
    ((parse_key_position 3 2 4 Key.up ⟨0, 0, 0⟩).2 = ⟨0, 0, 0⟩ ∧
        (parse_key_position 3 2 4 Key.left ⟨0, 0, 0⟩).2 = ⟨0, 0, 0⟩) ∧
      (parse_key_position 3 2 4 Key.left ⟨2, 0, 1⟩).2 = ⟨1, 3, 1⟩ ∧
      (parse_key_position 3 2 4 Key.right ⟨1, 3, 0⟩).2 = ⟨2, 0, 0⟩ ∧
      ((parse_key_position 3 2 4 Key.left ⟨0, 0, 1⟩).2 = ⟨0, 0, 1⟩ ∧
        (parse_key_position 3 2 4 Key.right ⟨2, 3, 1⟩).2 = ⟨2, 3, 1⟩) :=
  ⟨C9_movement.1 3 2 4,
    C9_movement.2.1 3 2 4 2 1 (by decide),
    C9_movement.2.2.1 3 2 4 1 0 (by decide) (by decide),
    C9_movement.2.2.2 3 2 4 1⟩

/-- C `toupper` restricted to ASCII as applied byte-wise by
`string_modifier(word, toupper)` (game.cpp). -/
def byte_toupper (c : Byte) : Byte :=
  if 97 ≤ c.val ∧ c.val ≤ 122 then ⟨c.val - 32, by have := c.isLt; omega⟩ else c

/-- `string_modifier(s, toupper)` (game.cpp): apply `toupper` to every
character. -/
def string_modifier (s : List Byte) : List Byte :=
  s.map byte_toupper

/-- `robsec::DictionaryGroup` (game.hpp): the words of one length. -/
structure DictionaryGroup where
  length : Nat
  words : List (List Byte)
deriving DecidableEq, Repr

/-- Update the group at one index of the sorted dictionary, modelling
`sorted_dictionary[modified_word.length()].words.push_back(...)`. -/
def modifyAt (f : DictionaryGroup → DictionaryGroup) :
    Nat → List DictionaryGroup → List DictionaryGroup
  | _, [] => []
  | 0, g :: gs => f g :: gs
  | n + 1, g :: gs => g :: modifyAt f n gs

/-- The body of the `while (file >> word)` loop of `Game::load_dictionary`
(game.cpp, latest variant): skip empty words, uppercase, skip words whose
length exceeds the group table, append to the length's group.  The flat
`dictionary` vector receives the same words but is never read by the puzzle
logic, so it is not modelled. -/
def load_word (groups : List DictionaryGroup) (word : List Byte) : List DictionaryGroup :=
  if word = [] then groups
  else
    let modified_word := string_modifier word
    if groups.length ≤ modified_word.length then groups
    else
      modifyAt (fun g => { g with words := g.words ++ [modified_word] })
        modified_word.length groups

/-- The 256 length-indexed groups built by `Game::load_dictionary` from the
raw token sequence, before small groups are erased. -/
def sorted_groups (raw : List (List Byte)) : List DictionaryGroup :=
  raw.foldl load_word
    ((List.range 256).map (fun i => ({ length := i, words := [] } : DictionaryGroup)))

/-- `Game::load_dictionary` (game.cpp, latest variant), with the file
contents abstracted as the list of whitespace-delimited tokens `raw` (a
failure to open the file is a separate earlier `return false`).  Groups
whose word count is at most `2 * n_words` are erased; the function fails
iff the number of removed groups equals the total number of groups. -/
def load_dictionary (n_words : Nat) (raw : List (List Byte)) :
    Option (List DictionaryGroup) :=
  let groups := sorted_groups raw
  let kept := groups.filter (fun g => ! decide (g.words.length ≤ 2 * n_words))
  let removed := groups.length - kept.length
  if removed = groups.length then none else some kept

/-- The concrete dictionary of the claim: 5 tokens of length 4 and 30 tokens
of length 5. -/
def exampleRaw : List (List Byte) :=
  List.replicate 5 (str "GAME") ++ List.replicate 30 (str "WORDS")

/-- C8: dictionary building buckets the normalized words by length, keeps
exactly the buckets with more than `2 * wordsPerPuzzle` words, and fails iff
every bucket is discarded; on buckets of sizes {length 4: 5, length 5: 30}
with `wordsPerPuzzle = 3` exactly the length-5 bucket survives. -/
theorem C8_bucket_filtering :
    (∀ (n_words : Nat) (raw : List (List Byte)),
        load_dictionary n_words raw = none ↔
          ∀ g ∈ sorted_groups raw, g.words.length ≤ 2 * n_words) ∧
      (∀ (n_words : Nat) (raw : List (List Byte)) (kept : List DictionaryGroup),
        load_dictionary n_words raw = some kept →
          (∀ g ∈ kept, 2 * n_words < g.words.length) ∧
            (∀ g ∈ sorted_groups raw, 2 * n_words < g.words.length → g ∈ kept)) ∧
      load_dictionary 3 exampleRaw =
        some [{ length := 5, words := List.replicate 30 (str "WORDS") }] := by
  refine ⟨?_, ?_, by decide⟩
  · intro n raw
    rw [load_dictionary]
    have hle := List.length_filter_le
      (fun g => ! decide (g.words.length ≤ 2 * n)) (sorted_groups raw)
    constructor
    · intro hnone
      have hrem : (sorted_groups raw).length -
          ((sorted_groups raw).filter (fun g => ! decide (g.words.length ≤ 2 * n))).length =
          (sorted_groups raw).length := by
        by_contra hne
        rw [if_neg hne] at hnone
        exact Option.noConfusion hnone
      have hzero : ((sorted_groups raw).filter
          (fun g => ! decide (g.words.length ≤ 2 * n))).length = 0 ∨
          (sorted_groups raw).length = 0 := by omega
      have hnil : (sorted_groups raw).filter
          (fun g => ! decide (g.words.length ≤ 2 * n)) = [] := by
        rcases hzero with h | h
        · exact List.length_eq_zero.mp h
        · exact List.length_eq_zero.mp (by omega)
      intro g hg
      have := (List.filter_eq_nil_iff.mp hnil) g hg
      simpa using this
    · intro hall
      have hnil : (sorted_groups raw).filter
          (fun g => ! decide (g.words.length ≤ 2 * n)) = [] := by
        rw [List.filter_eq_nil_iff]
        intro g hg
        simpa using hall g hg
      rw [hnil]
      simp
  · intro n raw kept hsome
    rw [load_dictionary] at hsome
    by_cases hrem : (sorted_groups raw).length -
        ((sorted_groups raw).filter (fun g => ! decide (g.words.length ≤ 2 * n))).length =
        (sorted_groups raw).length
    · rw [if_pos hrem] at hsome
      exact Option.noConfusion hsome
    · rw [if_neg hrem] at hsome
      have hk : kept = (sorted_groups raw).filter
          (fun g => ! decide (g.words.length ≤ 2 * n)) := (Option.some.injEq _ _ ▸ hsome).symm
      subst hk
      constructor
      · intro g hg
        have := List.of_mem_filter hg
        simpa using this
      · intro g hg hlt
        refine List.mem_filter.mpr ⟨hg, ?_⟩
        simpa using hlt

/-- C8 witness: the filter characterization applied to the concrete
dictionary — the surviving length-5 bucket has more than 6 words, and every
bucket with more than 6 words is kept. -/
theorem C8_bucket_filtering_witness :
    (∀ g ∈ [({ length := 5, words := List.replicate 30 (str "WORDS") } : DictionaryGroup)],
        2 * 3 < g.words.length) ∧
      (∀ g ∈ sorted_groups exampleRaw, 2 * 3 < g.words.length →
        g ∈ [({ length := 5, words := List.replicate 30 (str "WORDS") } : DictionaryGroup)]) :=
  C8_bucket_filtering.2.1 3 exampleRaw
    [{ length := 5, words := List.replicate 30 (str "WORDS") }] (by decide)

/-- The retry loop of `Game::find_unoccupied_space_for_word` (game.cpp,
latest variant).  Each element of `draws` is one round's pair of random
draws `(panel, start)`; the real draws satisfy `panel ≤ n_panels - 1` and
`start ≤ n_rows * n_columns - length`, but no claim depends on the range,
so the draws are quantified over freely.  A draw whose word overlaps some
already-placed word (in any panel — `Word::overlap` reads no panel) is
rejected and the loop retries; an accepted draw materializes the
per-character screen coordinates.  An exhausted draw list models the C++
reset-and-return-false path (`word.reset()`), as `none`. -/
def find_unoccupied_loop (n_columns : Nat) (placed : List Word) (s : List Byte) :
    List (Nat × Nat) → Option Word
  | [] => none
  | (p, st) :: rest =>
    let word := Word.mk3 p st s
    if word.overlapList placed then find_unoccupied_loop n_columns placed s rest
    else
      some { word with coordinates :=
        (List.range s.length).map (fun i => linear_to_screen_location n_columns p (st + i)) }

/-- `Game::find_unoccupied_space_for_word` (game.cpp): at most 20 rounds. -/
def find_unoccupied_space_for_word (n_columns : Nat) (placed : List Word) (s : List Byte)
    (draws : List (Nat × Nat)) : Option Word :=
  find_unoccupied_loop n_columns placed s (draws.take 20)

/-- The word-placement `while (total_words && round)` loop of
`Game::initialize` (game.cpp, latest variant).  `tape k` supplies iteration
`k`'s random draws: the selection index draw and the placement draws.  The
C++ loop runs at most `total + round` iterations, since every iteration
decrements one of the two counters; `fuel` is initialized to that bound by
the caller, so the `fuel = 0` branch is never reached from `init_game`.
`random_number(0, selection.size() - 1)` always yields an in-range index;
an arbitrary tape value is reduced modulo the selection size, which is the
identity on in-range draws. -/
def place_loop (n_columns : Nat) (tape : Nat → Nat × List (Nat × Nat)) :
    Nat → Nat → Nat → Nat → List (List Byte) → List Word → List Word × Nat
  | 0, _, _, round, _, words => (words, round)
  | fuel + 1, k, total_words, round, selection, words =>
    if total_words = 0 ∨ round = 0 then (words, round)
    else
      let index := (tape k).1 % selection.length
      let string := selection.getD index []
      if words.any (fun w => decide (w.string = string)) then
        place_loop n_columns tape fuel (k + 1) total_words (round - 1) selection words
      else
        match find_unoccupied_space_for_word n_columns words string (tape k).2 with
        | some word =>
          place_loop n_columns tape fuel (k + 1) (total_words - 1) round
            (selection.eraseIdx index) (words ++ [word])
        | none =>
          place_loop n_columns tape fuel (k + 1) total_words (round - 1) selection words

/-- `Game::initialize` (game.cpp, latest variant), per-word placement part.
The dictionary loading and random group selection are abstracted into
`selection0`, the chosen `DictionaryGroup`'s word list; ncurses setup and
decoy-content generation are display-only and not modelled.  Returns the
placed words and the chosen solution on success. -/
def init_game (n_columns n_words : Nat) (selection0 : List (List Byte))
    (tape : Nat → Nat × List (Nat × Nat)) (solution_draw : Nat) :
    Option (List Word × List Byte) :=
  if selection0 = [] then none
  else
    let total_words := min n_words selection0.length
    if total_words = 0 then none
    else
      let result := place_loop n_columns tape (total_words + 100) 0 total_words 100 selection0 []
      if result.2 = 0 then none
      else if result.1 = [] then none
      else
        some (result.1,
          (result.1.getD (solution_draw % result.1.length) (Word.mk3 0 0 [])).string)

/-- `Word.overlapList` decoded: true iff some word of the list satisfies the
closed-interval test — with no condition on panels. -/
lemma overlapList_iff (w : Word) (ws : List Word) :
    w.overlapList ws = true ↔ ∃ o ∈ ws, w.start ≤ o.end_ ∧ o.start ≤ w.end_ := by
  induction ws with
  | nil => simp [Word.overlapList]
  | cons o rest ih =>
    rw [Word.overlapList]
    by_cases h : w.overlap o = true
    · rw [if_pos h]
      simp only [Word.overlap, Bool.and_eq_true, decide_eq_true_eq] at h
      simp only [List.mem_cons, true_iff]
      exact ⟨o, Or.inl rfl, h⟩
    · rw [if_neg h]
      simp only [Word.overlap, Bool.and_eq_true, decide_eq_true_eq] at h
      rw [ih]
      constructor
      · rintro ⟨o', ho', hh⟩
        exact ⟨o', List.mem_cons_of_mem _ ho', hh⟩
      · rintro ⟨o', ho', hh⟩
        rcases List.mem_cons.mp ho' with rfl | hmem
        · exact absurd hh h
        · exact ⟨o', hmem, hh⟩

/-- A word returned by the placement retry loop keeps the tested span and
overlaps no already-placed word. -/
lemma find_unoccupied_loop_sound (n_columns : Nat) (placed : List Word) (s : List Byte) :
    ∀ (draws : List (Nat × Nat)) (w : Word),
      find_unoccupied_loop n_columns placed s draws = some w →
      ∀ o ∈ placed, ¬ (w.start ≤ o.end_ ∧ o.start ≤ w.end_) := by
  intro draws
  induction draws with
  | nil => intro w h; exact absurd h (by simp [find_unoccupied_loop])
  | cons d rest ih =>
    obtain ⟨p, st⟩ := d
    intro w h
    rw [find_unoccupied_loop] at h
    by_cases hov : (Word.mk3 p st s).overlapList placed = true
    · rw [if_pos hov] at h
      exact ih w h
    · rw [if_neg hov] at h
      have hw : w.start = st ∧ w.end_ = st + s.length := by
        have := Option.some.injEq _ _ ▸ h
        subst this
        exact ⟨rfl, rfl⟩
      intro o ho hcontra
      exact hov (overlapList_iff _ _ |>.mpr ⟨o, ho, by
        simp only [Word.mk3]
        exact ⟨hw.1 ▸ hcontra.1, hw.2 ▸ hcontra.2⟩⟩)

/-- The placement loop preserves pairwise non-overlap of the placed words
(closed-interval rule, all panels). -/
lemma place_loop_pairwise (n_columns : Nat) (tape : Nat → Nat × List (Nat × Nat)) :
    ∀ (fuel k total_words round : Nat) (selection : List (List Byte)) (words : List Word),
      words.Pairwise (fun a b => ¬ (a.start ≤ b.end_ ∧ b.start ≤ a.end_)) →
      (place_loop n_columns tape fuel k total_words round selection words).1.Pairwise
        (fun a b => ¬ (a.start ≤ b.end_ ∧ b.start ≤ a.end_)) := by
  intro fuel
  induction fuel with
  | zero =>
    intro k total_words round selection words hw
    simp only [place_loop]
    exact hw
  | succ fuel ih =>
    intro k total_words round selection words hw
    rw [place_loop]
    by_cases h1 : total_words = 0 ∨ round = 0
    · rw [if_pos h1]; exact hw
    · rw [if_neg h1]
      by_cases h2 : words.any (fun w =>
          decide (w.string = selection.getD ((tape k).1 % selection.length) [])) = true
      · simp only [if_pos h2]
        exact ih _ _ _ _ _ hw
      · simp only [if_neg h2]
        cases hfind : find_unoccupied_space_for_word n_columns words
            (selection.getD ((tape k).1 % selection.length) []) (tape k).2 with
        | none => exact ih _ _ _ _ _ hw
        | some w =>
          apply ih
          rw [List.pairwise_append]
          refine ⟨hw, List.pairwise_singleton _ _, ?_⟩
          intro a ha b hb
          rcases List.mem_singleton.mp hb with rfl
          have hs := find_unoccupied_loop_sound n_columns words _ _ b hfind a ha
          intro hcontra
          exact hs ⟨hcontra.2, hcontra.1⟩

/-- A successful `init_game` yields a globally pairwise non-overlapping
word list. -/
lemma init_game_pairwise (n_columns n_words : Nat) (selection0 : List (List Byte))
    (tape : Nat → Nat × List (Nat × Nat)) (solution_draw : Nat)
    (words : List Word) (solution : List Byte)
    (h : init_game n_columns n_words selection0 tape solution_draw = some (words, solution)) :
    words.Pairwise (fun a b => ¬ (a.start ≤ b.end_ ∧ b.start ≤ a.end_)) := by
  rw [init_game] at h
  by_cases h0 : selection0 = []
  · rw [if_pos h0] at h; exact Option.noConfusion h
  rw [if_neg h0] at h
  by_cases ht : min n_words selection0.length = 0
  · rw [if_pos ht] at h; exact Option.noConfusion h
  rw [if_neg ht] at h
  simp only at h
  by_cases hr : (place_loop n_columns tape (min n_words selection0.length + 100) 0
      (min n_words selection0.length) 100 selection0 []).2 = 0
  · rw [if_pos hr] at h; exact Option.noConfusion h
  rw [if_neg hr] at h
  by_cases he : (place_loop n_columns tape (min n_words selection0.length + 100) 0
      (min n_words selection0.length) 100 selection0 []).1 = []
  · rw [if_pos he] at h; exact Option.noConfusion h
  rw [if_neg he] at h
  have hpair := place_loop_pairwise n_columns tape (min n_words selection0.length + 100) 0
    (min n_words selection0.length) 100 selection0 [] List.Pairwise.nil
  have hwords : words = (place_loop n_columns tape (min n_words selection0.length + 100) 0
      (min n_words selection0.length) 100 selection0 []).1 := by
    have := Option.some.injEq _ _ ▸ h
    exact (congrArg Prod.fst this).symm
  rw [hwords]
  exact hpair

/-- C1: after a successful `initialize()`, every pair of distinct placed
words sharing a panel has non-overlapping `[start, end)` intervals under the
closed-interval rule. -/
theorem C1_no_overlap_same_panel :
    ∀ (n_columns n_words : Nat) (selection0 : List (List Byte))
      (tape : Nat → Nat × List (Nat × Nat)) (solution_draw : Nat)
      (words : List Word) (solution : List Byte),
      init_game n_columns n_words selection0 tape solution_draw = some (words, solution) →
      words.Pairwise
        (fun a b => a.panel = b.panel → ¬ (a.start ≤ b.end_ ∧ b.start ≤ a.end_)) :=
  fun n_columns n_words selection0 tape solution_draw words solution h => by
    have hp := init_game_pairwise n_columns n_words selection0 tape solution_draw
      words solution h
    exact hp.imp (fun hab => fun _ => hab)

/-- C1 witness: a successful concrete run placing the single word "CAT" at
panel 0, span [0, 3), in a 4-column grid. -/
theorem C1_no_overlap_witness :
    ([{ Word.mk3 0 0 (str "CAT") with
          coordinates := [⟨7, 5⟩, ⟨8, 5⟩, ⟨9, 5⟩] }] : List Word).Pairwise
      (fun a b => a.panel = b.panel → ¬ (a.start ≤ b.end_ ∧ b.start ≤ a.end_)) :=
  C1_no_overlap_same_panel 4 1 [str "CAT"] (fun _ => (0, [(0, 0)])) 0
    [{ Word.mk3 0 0 (str "CAT") with coordinates := [⟨7, 5⟩, ⟨8, 5⟩, ⟨9, 5⟩] }]
    (str "CAT") (by decide)

/-- C10: after a successful `initialize()`, the spans of distinct placed
words are pairwise disjoint under the closed-interval rule even across
panels, and the overlap predicate never reads the panel field. -/
theorem C10_no_overlap_cross_panel :
    (∀ (n_columns n_words : Nat) (selection0 : List (List Byte))
        (tape : Nat → Nat × List (Nat × Nat)) (solution_draw : Nat)
        (words : List Word) (solution : List Byte),
        init_game n_columns n_words selection0 tape solution_draw = some (words, solution) →
        words.Pairwise (fun a b => ¬ (a.start ≤ b.end_ ∧ b.start ≤ a.end_))) ∧
      ∀ (w rhs : Word) (p q : Nat),
        Word.overlap { w with panel := p } { rhs with panel := q } = Word.overlap w rhs :=
  ⟨fun n_columns n_words selection0 tape solution_draw words solution h =>
      init_game_pairwise n_columns n_words selection0 tape solution_draw words solution h,
    fun _ _ _ _ => rfl⟩

/-- C10 witness: a successful concrete run placing "DOG" at panel 1, span
[2, 5), in a 4-column grid. -/
theorem C10_no_overlap_witness :
    ([{ Word.mk3 1 2 (str "DOG") with
          coordinates := [⟨22, 5⟩, ⟨23, 5⟩, ⟨20, 6⟩] }] : List Word).Pairwise
      (fun a b => ¬ (a.start ≤ b.end_ ∧ b.start ≤ a.end_)) :=
  C10_no_overlap_cross_panel.1 4 1 [str "DOG"] (fun _ => (0, [(1, 2)])) 0
    [{ Word.mk3 1 2 (str "DOG") with coordinates := [⟨22, 5⟩, ⟨23, 5⟩, ⟨20, 6⟩] }]
    (str "DOG") (by decide)

/-- C5 counterexample: a draw at panel 1 is rejected (the single-draw search
exhausts its rounds and fails) although the only already-placed word lies in
panel 0 — an already-placed word in another panel does cause a rejection. -/
theorem C5_same_panel_counterexample :
    (Word.mk3 1 0 (str "CAT")).panel ≠ (Word.mk3 0 0 (str "DOG")).panel ∧
      (Word.mk3 1 0 (str "CAT")).overlapList [Word.mk3 0 0 (str "DOG")] = true ∧
      find_unoccupied_space_for_word 4 [Word.mk3 0 0 (str "DOG")] (str "CAT") [(1, 0)] =
        none := by
  decide

/-- C5 (amended): a drawn span `[start, start + length)` is rejected
(causing a retry) iff it overlaps, under the closed-interval rule, some
already-placed word in any panel — the overlap test ignores the panel
field, so words in other panels also cause rejections. -/
theorem C5_reject_iff_overlap_any_panel :
    ∀ (placed : List Word) (s : List Byte) (p st : Nat),
      ((Word.mk3 p st s).overlapList placed = true ↔
          ∃ o ∈ placed, st ≤ o.end_ ∧ o.start ≤ st + s.length) ∧
        ∀ (n_columns : Nat) (rest : List (Nat × Nat)),
          find_unoccupied_loop n_columns placed s ((p, st) :: rest) =
            if (Word.mk3 p st s).overlapList placed then
              find_unoccupied_loop n_columns placed s rest
            else
              some { Word.mk3 p st s with coordinates :=
                ((List.range s.length).map
                  (fun i => linear_to_screen_location n_columns p (st + i))) } := by
  intro placed s p st
  constructor
  · rw [overlapList_iff]
    simp only [Word.mk3]
  · intro n_columns rest
    rfl

end robsec
